import Mathlib

/-!
Shallow embedding of `src/backend/instagram_api.py` (account verification
engine) and proofs about its per-account check state machine and the
`verify_accounts` aggregation loop.

Modelling conventions:
* Machine state that the Python module keeps in globals (`_rate_limited`,
  `_rate_limited_until`, the cookie module flags, the `RENDER` deployment
  flag) is passed explicitly (`RateState`, `Config`).
* Every network call is an oracle value supplied by the environment.  The
  oracle types (`PageHttp`, `UserHttp`, `SearchHttp`) enumerate all the
  outcome shapes the Python exception handlers distinguish, including
  timeouts / connection errors (`exc`), arbitrary HTTP error codes, and
  malformed payloads (`parseFail`, `notDict`, ...); the exhaustive matches
  in the Lean definitions mirror the `try/except` clauses of the source.
* A run of `verify_accounts` is modelled as a sequentialised trace: the
  engine consumes worker results in an arbitrary completion order
  (`completed` below), each check being atomic with respect to the shared
  rate-limit state.  Any concurrent interleaving of the source corresponds
  to some completion order together with per-call oracles and clock values,
  so theorems quantified over these cover all interleavings of the
  per-check effects modelled here.
-/

namespace IgVerify

/-- Boolean contiguous-infix test on character lists, the model of the
Python `in` operator on strings. -/
def listInfixB (needle : List Char) : List Char → Bool
  | [] => needle.isEmpty
  | c :: rest => needle.isPrefixOf (c :: rest) || listInfixB needle rest

/-- Model of `needle in haystack` for Python strings. -/
def containsStr (haystack needle : String) : Bool :=
  listInfixB needle.data haystack.data

/-- Outcome of one `urllib.request.urlopen` call for a profile-page GET:
a response with a status and a body, an `HTTPError` with a code, or any
other exception (timeout, connection reset, SSL failure, ...). -/
inductive PageHttp where
  | ok (status : Nat) (html : String)
  | httpError (code : Nat)
  | exc
deriving DecidableEq, Repr

/-- Markers of `_do_fetch` in `_fetch_profile_page`: the page reports the
account unavailable. -/
def unavailMarker (html : String) : Bool :=
  containsStr html "Sorry, this page isn\x27t available" ||
  containsStr html "this page isn\x27t available" ||
  containsStr html "page isn\x27t available" ||
  containsStr html "User not found" ||
  containsStr html "The link you followed may be broken" ||
  containsStr html "link you followed may be broken"

/-- Markers of `_do_fetch`: the page clearly shows a real profile. -/
def confirmsMarker (html : String) : Bool :=
  containsStr html "profilePage_" ||
  containsStr html "logging_page_id" ||
  containsStr html "\"profile_id\":"

/-- Model of the inner `_do_fetch` of `_fetch_profile_page`, as a function
of the raw network outcome.  Returns `(unavailable, confirms_exists)`; the
html third component of the source triple is discarded because the caller
never uses it.  The `httpError` and `exc` arms are the two `except`
clauses of the source. -/
def do_fetch (o : PageHttp) : Bool × Bool :=
  match o with
  | .ok status html =>
      if status ≠ 200 then (true, false)
      else (unavailMarker html, confirmsMarker html)
  | .httpError code => (code == 404, false)
  | .exc => (false, false)

/-- Model of `_fetch_profile_page`: one fetch plus up to two retries while
the result is neither `unavailable` nor `confirms`.  `attempts n` is the
network outcome of attempt `n`. -/
def fetch_profile_page (attempts : Nat → PageHttp) : Bool × Bool :=
  let r0 := do_fetch (attempts 0)
  let r1 := if r0.1 || r0.2 then r0 else do_fetch (attempts 1)
  if r1.1 || r1.2 then r1 else do_fetch (attempts 2)

/-- Shared rate-limit state: the `_rate_limited` event and the
`_rate_limited_until` timestamp (seconds, modelled as `Nat`). -/
structure RateState where
  limited : Bool
  limited_until : Nat
deriving DecidableEq, Repr

/-- Cooldown constant `_RATE_LIMIT_COOLDOWN` of the source. -/
def RATE_LIMIT_COOLDOWN : Nat := 70

/-- Model of a JSON user object as far as the source inspects it:
`username`, `pk` (0 models a falsy/absent pk) and `is_private`
(`none` models an absent key). -/
structure PyUser where
  username : Option String
  pk : Nat
  is_private : Option Bool
deriving DecidableEq, Repr

/-- Whitespace test of Python `str.strip` (ASCII whitespace). -/
def isSpaceChar (c : Char) : Bool :=
  c == ' ' || c == '\t' || c == '\n' || c == '\r' || c == '\x0b' || c == '\x0c'

/-- Model of Python `str.strip()`: drop leading and trailing whitespace. -/
def pyStrip (s : String) : String :=
  ⟨((s.data.dropWhile isSpaceChar).reverse.dropWhile isSpaceChar).reverse⟩

/-- ASCII lowercase of one character, the model of Python `str.lower()`
on the ASCII usernames the service deals in. -/
def lowerChar (c : Char) : Char :=
  if 'A' ≤ c && c ≤ 'Z' then Char.ofNat (c.toNat + 32) else c

/-- Model of Python `str.lower()`. -/
def pyLower (s : String) : String :=
  ⟨s.data.map lowerChar⟩

/-- Model of `_is_valid_user`. -/
def is_valid_user (user : Option PyUser) (required : Option String) : Bool :=
  match user with
  | none => false
  | some u =>
    match u.username with
    | none => false
    | some un0 =>
      if un0.isEmpty || u.pk == 0 then false
      else
        let un := pyStrip un0
        if un.isEmpty then false
        else
          match required with
          | none => true
          | some r => pyLower un == pyLower r

/-- Shape of the `"data"` field of a parsed `web_profile_info` payload:
absent or falsy (`data.get("data") or \x7b\x7d`), truthy but not a dict, or a
dict whose `"user"` entry is modelled as an `Option PyUser`. -/
inductive DataField where
  | falsy
  | truthyNonDict
  | someUser (user : Option PyUser)
deriving DecidableEq, Repr

/-- Parse outcome of a 200-response body in `_fetch_user`: JSON decoding
failed, decoded to a non-dict (so `.get` raises), or decoded to a dict
with the given `"data"` field. -/
inductive ProfilePayload where
  | parseFail
  | notDict
  | dict (dataField : DataField)
deriving DecidableEq, Repr

/-- Parse outcome of an HTTP-error body in `_fetch_user`: reading or
decoding the body raised, or it decoded and the source inspects
`data.get("message")` truthiness and whether `data.get("user")` is None. -/
inductive ErrBody where
  | parseFail
  | parsed (messageTruthy : Bool) (userIsNone : Bool)
deriving DecidableEq, Repr

/-- Outcome of the `urlopen` call in `_fetch_user`. -/
inductive UserHttp where
  | ok (payload : ProfilePayload)
  | httpError (code : Nat) (body : ErrBody)
  | exc
deriving DecidableEq, Repr

/-- Return value of `_fetch_user`: `"RATE_LIMITED"`, `None`, `\x7b\x7d`
(error), or a validated user dict. -/
inductive FetchUserRes where
  | rateLimitedRes
  | noneRes
  | errorRes
  | userRes (u : PyUser)
deriving DecidableEq, Repr

/-- Body of `_fetch_user` after the rate-limit gate: classify the network
outcome exactly as the source does, updating the shared rate-limit state
on HTTP 401/429. -/
def fetch_user_body (now : Nat) (st : RateState) (net : UserHttp) :
    FetchUserRes × RateState :=
  match net with
  | .ok payload =>
    match payload with
    | .parseFail => (.errorRes, st)
    | .notDict => (.errorRes, st)
    | .dict df =>
      match df with
      | .falsy => (.noneRes, st)
      | .truthyNonDict => (.noneRes, st)
      | .someUser user =>
        match user with
        | none => (.noneRes, st)
        | some u => (.userRes u, st)
  | .httpError code body =>
    if code == 401 || code == 429 then
      (.rateLimitedRes, { limited := true, limited_until := now + RATE_LIMIT_COOLDOWN })
    else if code == 404 || code == 400 then (.noneRes, st)
    else
      match body with
      | .parseFail => (.errorRes, st)
      | .parsed msgT userNone => if msgT || userNone then (.noneRes, st) else (.errorRes, st)
  | .exc => (.errorRes, st)

/-- Validation step of `_fetch_user`: a 200 payload whose user dict fails
`_is_valid_user` yields `None`. -/
def validate_fetched (username : String) (r : FetchUserRes × RateState) :
    FetchUserRes × RateState :=
  match r with
  | (.userRes u, st) =>
      if is_valid_user (some u) (some username) then (.userRes u, st) else (.noneRes, st)
  | other => other

/-- Model of `_fetch_user`: the rate-limit gate (`now` is the value of
`time.time()` at the gate), then the network classification, then user
validation. -/
def fetch_user (username : String) (now : Nat) (st : RateState) (net : UserHttp) :
    FetchUserRes × RateState :=
  if st.limited then
    if now < st.limited_until then (.rateLimitedRes, st)
    else validate_fetched username (fetch_user_body now { st with limited := false } net)
  else validate_fetched username (fetch_user_body now st net)

/-- Outcome of the `urlopen` + JSON decode in `_search_check`: a parsed
`users` list (each entry modelled by the user dict the source extracts),
or any exception including a JSON decode failure. -/
inductive SearchHttp where
  | ok (users : List PyUser)
  | exc
deriving DecidableEq, Repr

/-- Return value of `_search_check`: `False` (not found), `None`
(error), or the matching user dict. -/
inductive SearchRes where
  | notFound
  | errRes
  | foundUser (u : PyUser)
deriving DecidableEq, Repr

/-- Model of `_search_check`: find the first entry whose username equals
the query exactly; if it is absent or fails `_is_valid_user`, return
`notFound`; on any exception return `errRes`. -/
def search_check (username : String) (net : SearchHttp) : SearchRes :=
  match net with
  | .exc => .errRes
  | .ok users =>
    match users.find? (fun u => u.username == some username) with
    | none => .notFound
    | some m => if is_valid_user (some m) (some username) then .foundUser m else .notFound

/-- Deployment and session flags read by the checkers:
`has_logged_in_session` from the cookies module and
`_verification_conservative` (the `RENDER` environment flag). -/
structure Config where
  has_logged_in_session : Bool
  verification_conservative : Bool
deriving DecidableEq, Repr

/-- Model of `_check_existence`.  Returns the worker tuple
`(username, ts, exists, False)`. -/
def check_existence (cfg : Config) (attempts : Nat → PageHttp)
    (username : String) (ts : Nat) : String × Nat × Bool × Bool :=
  let r := fetch_profile_page attempts
  if r.1 then (username, ts, false, false)
  else if r.2 then (username, ts, true, false)
  else if !cfg.has_logged_in_session && cfg.verification_conservative then
    (username, ts, true, false)
  else (username, ts, false, false)

/-- Per-call environment of one `_check_pending` invocation: the page
fetch attempts, the clock value read at the `_fetch_user` rate-limit
gate, and the two API-call outcomes. -/
structure PendEnv where
  pageAttempts : Nat → PageHttp
  userNow : Nat
  userNet : UserHttp
  searchNet : SearchHttp

/-- Model of `_check_pending`.  Returns the worker tuple
`(username, ts, exists, is_private)` (with `is_private : Option Bool`,
`none` modelling Python `None`) together with the rate-limit state after
the call. -/
def check_pending (cfg : Config) (env : PendEnv) (st : RateState)
    (username : String) (ts : Nat) :
    (String × Nat × Bool × Option Bool) × RateState :=
  let r := fetch_profile_page env.pageAttempts
  if r.1 then ((username, ts, false, none), st)
  else if !cfg.has_logged_in_session then
    if cfg.verification_conservative then ((username, ts, true, some true), st)
    else if !r.2 then ((username, ts, false, none), st)
    else ((username, ts, true, some true), st)
  else
    match fetch_user username env.userNow st env.userNet with
    | (.rateLimitedRes, st2) =>
      match search_check username env.searchNet with
      | .notFound => ((username, ts, false, none), st2)
      | .errRes => ((username, ts, true, some true), st2)
      | .foundUser u => ((username, ts, true, some (u.is_private.getD true)), st2)
    | (.noneRes, st2) => ((username, ts, false, none), st2)
    | (.errorRes, st2) => ((username, ts, true, some true), st2)
    | (.userRes u, st2) => ((username, ts, true, some (u.is_private.getD true)), st2)

/-- Python-dict assignment on an insertion-ordered association list:
updating an existing key overwrites its value in place (keeping the
original position); a new key is appended at the end. -/
def dictInsert {V : Type} (k : String × Nat) (v : V) :
    List ((String × Nat) × V) → List ((String × Nat) × V)
  | [] => [(k, v)]
  | (k2, v2) :: rest => if k2 = k then (k, v) :: rest else (k2, v2) :: dictInsert k v rest

/-- Aggregation step of the `require_private=False` loop of
`verify_accounts`: store the worker result in `results` keyed by the
returned `(name, ts)`.  The worker never touches the rate-limit state. -/
def existence_step (cfg : Config) :
    (List ((String × Nat) × Bool) × RateState) →
    ((String × Nat) × (Nat → PageHttp)) →
    List ((String × Nat) × Bool) × RateState :=
  fun acc entry =>
    let r := check_existence cfg entry.2 entry.1.1 entry.1.2
    (dictInsert (r.1, r.2.1) r.2.2.1 acc.1, acc.2)

/-- Model of the `require_private=False` branch of `verify_accounts`:
clear the shared flag, fold the completed worker results in completion
order into the results dict, then keep the pairs whose value is `exists`.
Returns `(kept, was_rate_limited)`. -/
def run_existence (cfg : Config)
    (completed : List ((String × Nat) × (Nat → PageHttp))) (st0 : RateState) :
    List (String × Nat) × Bool :=
  let out := completed.foldl (existence_step cfg) ([], { st0 with limited := false })
  ((out.1.filter fun p => p.2).map fun p => p.1, out.2.limited)

/-- Keep predicate of the `require_private=True` aggregation loop: an
account is appended to `kept` iff `exists` and `is_private` is not the
Python literal `False`. -/
def pendingKeeps (v : Bool × Option Bool) : Bool :=
  v.1 && !(v.2 == some false)

/-- Aggregation step of the `require_private=True` loop of
`verify_accounts`: run the check against the current shared state, store
`(exists, is_private)` keyed by the returned `(name, ts)`, and carry the
updated rate-limit state. -/
def pending_step (cfg : Config) :
    (List ((String × Nat) × (Bool × Option Bool)) × RateState) →
    ((String × Nat) × PendEnv) →
    List ((String × Nat) × (Bool × Option Bool)) × RateState :=
  fun acc entry =>
    let r := check_pending cfg entry.2 acc.2 entry.1.1 entry.1.2
    (dictInsert (r.1.1, r.1.2.1) (r.1.2.2.1, r.1.2.2.2) acc.1, r.2)

/-- Model of the `require_private=True` branch of `verify_accounts`. -/
def run_pending (cfg : Config) (completed : List ((String × Nat) × PendEnv))
    (st0 : RateState) : List (String × Nat) × Bool :=
  let out := completed.foldl (pending_step cfg) ([], { st0 with limited := false })
  ((out.1.filter fun p => pendingKeeps p.2).map fun p => p.1, out.2.limited)

/-- Trace of the shared rate-limit state along a `require_private=True`
run: the state before any worker result is consumed and after each one. -/
def pending_states (cfg : Config) (completed : List ((String × Nat) × PendEnv))
    (st0 : RateState) : List RateState :=
  (List.scanl (pending_step cfg) ([], { st0 with limited := false }) completed).map
    fun p => p.2

/-! ### Lemmas about `dictInsert` -/

theorem dictInsert_mem {V : Type} {k' k : String × Nat} {v' v : V}
    {l : List ((String × Nat) × V)} (h : (k', v') ∈ dictInsert k v l) :
    (k' = k ∧ v' = v) ∨ (k', v') ∈ l := by
  induction l with
  | nil =>
    simp [dictInsert] at h
    exact Or.inl ⟨h.1, h.2⟩
  | cons p rest ih =>
    obtain ⟨k2, v2⟩ := p
    simp only [dictInsert] at h
    by_cases hk : k2 = k
    · simp [hk] at h
      rcases h with ⟨h1, h2⟩ | h
      · exact Or.inl ⟨h1, h2⟩
      · exact Or.inr (List.mem_cons_of_mem _ h)
    · simp [hk] at h
      rcases h with ⟨h1, h2⟩ | h
      · subst h1; subst h2; exact Or.inr (List.mem_cons_self _ _)
      · rcases ih h with h' | h'
        · exact Or.inl h'
        · exact Or.inr (List.mem_cons_of_mem _ h')

theorem dictInsert_self {V : Type} (k : String × Nat) (v : V)
    (l : List ((String × Nat) × V)) : (k, v) ∈ dictInsert k v l := by
  induction l with
  | nil => simp [dictInsert]
  | cons p rest ih =>
    obtain ⟨k2, v2⟩ := p
    simp only [dictInsert]
    by_cases hk : k2 = k
    · simp [hk]
    · simp only [if_neg hk]
      exact List.mem_cons_of_mem _ ih

theorem dictInsert_key_mem {V : Type} {k' : String × Nat} (k : String × Nat) (v : V)
    {l : List ((String × Nat) × V)} (h : k' ∈ l.map Prod.fst) :
    k' ∈ (dictInsert k v l).map Prod.fst := by
  induction l with
  | nil => simp at h
  | cons p rest ih =>
    obtain ⟨k2, v2⟩ := p
    simp only [List.map_cons, List.mem_cons] at h
    simp only [dictInsert]
    by_cases hk : k2 = k
    · simp only [if_pos hk, List.map_cons, List.mem_cons]
      rcases h with h | h
      · exact Or.inl (h.trans hk)
      · exact Or.inr h
    · simp only [if_neg hk, List.map_cons, List.mem_cons]
      rcases h with h | h
      · exact Or.inl h
      · exact Or.inr (ih h)

theorem dictInsert_keys_sub {V : Type} {k' k : String × Nat} {v : V}
    {l : List ((String × Nat) × V)} (h : k' ∈ (dictInsert k v l).map Prod.fst) :
    k' = k ∨ k' ∈ l.map Prod.fst := by
  rw [List.mem_map] at h
  obtain ⟨⟨kk, vv⟩, hmem, hfst⟩ := h
  rcases dictInsert_mem hmem with ⟨h1, _⟩ | h2
  · exact Or.inl (hfst ▸ h1)
  · exact Or.inr (hfst ▸ List.mem_map_of_mem Prod.fst h2)

theorem dictInsert_length {V : Type} (k : String × Nat) (v : V)
    (l : List ((String × Nat) × V)) :
    (dictInsert k v l).length ≤ l.length + 1 := by
  induction l with
  | nil => simp [dictInsert]
  | cons p rest ih =>
    obtain ⟨k2, v2⟩ := p
    simp only [dictInsert]
    by_cases hk : k2 = k
    · simp [hk]
    · simp only [if_neg hk, List.length_cons]
      omega

theorem dictInsert_keys_nodup {V : Type} {k : String × Nat} {v : V}
    {l : List ((String × Nat) × V)} (h : (l.map Prod.fst).Nodup) :
    ((dictInsert k v l).map Prod.fst).Nodup := by
  induction l with
  | nil => simp [dictInsert]
  | cons p rest ih =>
    obtain ⟨k2, v2⟩ := p
    simp only [List.map_cons, List.nodup_cons] at h
    simp only [dictInsert]
    by_cases hk : k2 = k
    · simp only [if_pos hk, List.map_cons, List.nodup_cons]
      exact ⟨hk ▸ h.1, h.2⟩
    · simp only [if_neg hk, List.map_cons, List.nodup_cons]
      refine ⟨fun hmem => ?_, ih h.2⟩
      rcases dictInsert_keys_sub hmem with h1 | h1
      · exact hk h1
      · exact h.1 h1

theorem dictInsert_fresh {V : Type} {k : String × Nat} {v : V}
    {l : List ((String × Nat) × V)} (h : k ∉ l.map Prod.fst) :
    dictInsert k v l = l ++ [(k, v)] := by
  induction l with
  | nil => simp [dictInsert]
  | cons p rest ih =>
    obtain ⟨k2, v2⟩ := p
    simp only [List.map_cons, List.mem_cons] at h
    push_neg at h
    have hne : ¬(k2 = k) := fun hk => h.1 hk.symm
    simp only [dictInsert, if_neg hne, List.cons_append]
    rw [ih h.2]

/-! ### Generic fold over completed worker results

Both aggregation loops of `verify_accounts` have the shape: consume the
completed results one by one, keyed by the account pair the worker echoes
back, threading the shared rate-limit state.  `genStep` captures that
shape; the bridge lemmas below identify the two concrete loops with it. -/

/-- Generic aggregation step: insert the value computed by `val` for the
entry under the entry's key, and update the shared state by `nst`. -/
def genStep {E V : Type} (val : ((String × Nat) × E) → RateState → V)
    (nst : ((String × Nat) × E) → RateState → RateState) :
    (List ((String × Nat) × V) × RateState) → ((String × Nat) × E) →
    List ((String × Nat) × V) × RateState :=
  fun acc e => (dictInsert e.1 (val e acc.2) acc.1, nst e acc.2)

theorem genFold_binding {E V : Type} (val : ((String × Nat) × E) → RateState → V)
    (nst : ((String × Nat) × E) → RateState → RateState)
    (P : V → Prop) (k : String × Nat) :
    ∀ (es : List ((String × Nat) × E)) (d : List ((String × Nat) × V)) (st : RateState),
      (∀ v, (k, v) ∈ d → P v) →
      (∀ e, e ∈ es → e.1 = k → ∀ st', P (val e st')) →
      ∀ v, (k, v) ∈ (es.foldl (genStep val nst) (d, st)).1 → P v := by
  intro es
  induction es with
  | nil => intro d st hd _ v hv; exact hd v hv
  | cons e rest ih =>
    intro d st hd hes v hv
    refine ih _ _ ?_ (fun e' he' hk => hes e' (List.mem_cons_of_mem _ he') hk) v hv
    intro v' hv'
    rcases dictInsert_mem hv' with ⟨hk, hval⟩ | hmem
    · exact hval ▸ hes e (List.mem_cons_self _ _) hk.symm st
    · exact hd v' hmem

theorem genFold_covered {E V : Type} (val : ((String × Nat) × E) → RateState → V)
    (nst : ((String × Nat) × E) → RateState → RateState) (k : String × Nat) :
    ∀ (es : List ((String × Nat) × E)) (d : List ((String × Nat) × V)) (st : RateState),
      ((∃ e, e ∈ es ∧ e.1 = k) ∨ k ∈ d.map Prod.fst) →
      ∃ v, (k, v) ∈ (es.foldl (genStep val nst) (d, st)).1 := by
  intro es
  induction es with
  | nil =>
    intro d st h
    rcases h with ⟨e, he, _⟩ | h
    · exact absurd he (List.not_mem_nil e)
    · rw [List.mem_map] at h
      obtain ⟨⟨kk, vv⟩, hmem, hfst⟩ := h
      exact ⟨vv, by simpa [← hfst] using hmem⟩
  | cons e rest ih =>
    intro d st h
    refine ih _ _ ?_
    rcases h with ⟨e', he', hk⟩ | h
    · rcases List.mem_cons.mp he' with rfl | he''
      · refine Or.inr ?_
        have := dictInsert_self e'.1 (val e' st) d
        exact hk ▸ List.mem_map_of_mem Prod.fst this
      · exact Or.inl ⟨e', he'', hk⟩
    · exact Or.inr (dictInsert_key_mem _ _ h)

theorem genFold_keys_nodup {E V : Type} (val : ((String × Nat) × E) → RateState → V)
    (nst : ((String × Nat) × E) → RateState → RateState) :
    ∀ (es : List ((String × Nat) × E)) (d : List ((String × Nat) × V)) (st : RateState),
      (d.map Prod.fst).Nodup →
      ((es.foldl (genStep val nst) (d, st)).1.map Prod.fst).Nodup := by
  intro es
  induction es with
  | nil => intro d st hd; exact hd
  | cons e rest ih => intro d st hd; exact ih _ _ (dictInsert_keys_nodup hd)

theorem genFold_length {E V : Type} (val : ((String × Nat) × E) → RateState → V)
    (nst : ((String × Nat) × E) → RateState → RateState) :
    ∀ (es : List ((String × Nat) × E)) (d : List ((String × Nat) × V)) (st : RateState),
      (es.foldl (genStep val nst) (d, st)).1.length ≤ d.length + es.length := by
  intro es
  induction es with
  | nil => intro d st; simp
  | cons e rest ih =>
    intro d st
    calc (List.foldl (genStep val nst) (dictInsert e.1 (val e st) d, nst e st) rest).1.length
        ≤ (dictInsert e.1 (val e st) d).length + rest.length := ih _ _
      _ ≤ (d.length + 1) + rest.length :=
          Nat.add_le_add_right (dictInsert_length _ _ _) _
      _ = d.length + (e :: rest).length := by simp [List.length_cons]; omega

theorem genFold_keys_sub {E V : Type} (val : ((String × Nat) × E) → RateState → V)
    (nst : ((String × Nat) × E) → RateState → RateState) :
    ∀ (es : List ((String × Nat) × E)) (d : List ((String × Nat) × V)) (st : RateState)
      (x : String × Nat), x ∈ (es.foldl (genStep val nst) (d, st)).1.map Prod.fst →
      x ∈ d.map Prod.fst ∨ x ∈ es.map Prod.fst := by
  intro es
  induction es with
  | nil => intro d st x hx; exact Or.inl hx
  | cons e rest ih =>
    intro d st x hx
    rcases ih _ _ x hx with h | h
    · rcases dictInsert_keys_sub h with h1 | h1
      · exact Or.inr (by simp [h1])
      · exact Or.inl h1
    · exact Or.inr (List.mem_cons_of_mem _ h)

theorem genFold_keys_eq {E V : Type} (val : ((String × Nat) × E) → RateState → V)
    (nst : ((String × Nat) × E) → RateState → RateState) :
    ∀ (es : List ((String × Nat) × E)) (d : List ((String × Nat) × V)) (st : RateState),
      (es.map Prod.fst).Nodup →
      (∀ x, x ∈ es.map Prod.fst → x ∉ d.map Prod.fst) →
      (es.foldl (genStep val nst) (d, st)).1.map Prod.fst =
        d.map Prod.fst ++ es.map Prod.fst := by
  intro es
  induction es with
  | nil => intro d st _ _; simp
  | cons e rest ih =>
    intro d st hnd hdisj
    have hfresh : e.1 ∉ d.map Prod.fst := hdisj e.1 (by simp)
    have hstep : dictInsert e.1 (val e st) d = d ++ [(e.1, val e st)] :=
      dictInsert_fresh hfresh
    simp only [List.foldl_cons, genStep, hstep]
    simp only [List.map_cons, List.nodup_cons] at hnd
    rw [ih (d ++ [(e.1, val e st)]) (nst e st) hnd.2 ?_]
    · simp
    · intro x hx hx'
      simp only [List.map_append, List.mem_append, List.map_cons] at hx'
      rcases hx' with h | h
      · exact hdisj x (List.mem_cons_of_mem _ hx) h
      · simp at h
        exact hnd.1 (h ▸ hx)

theorem genFold_state_const {E V : Type} (val : ((String × Nat) × E) → RateState → V)
    (nst : ((String × Nat) × E) → RateState → RateState)
    (hconst : ∀ e st', nst e st' = st') :
    ∀ (es : List ((String × Nat) × E)) (d : List ((String × Nat) × V)) (st : RateState),
      (es.foldl (genStep val nst) (d, st)).2 = st := by
  intro es
  induction es with
  | nil => intro d st; rfl
  | cons e rest ih =>
    intro d st
    simp only [List.foldl_cons, genStep, hconst e st]
    exact ih _ _

/-! ### Shape of the worker tuples and bridge to the generic fold -/

theorem check_existence_shape (cfg : Config) (attempts : Nat → PageHttp)
    (username : String) (ts : Nat) :
    ∃ ex, check_existence cfg attempts username ts = (username, ts, ex, false) := by
  simp only [check_existence]
  repeat' split
  all_goals exact ⟨_, rfl⟩

theorem check_pending_shape (cfg : Config) (env : PendEnv) (st : RateState)
    (username : String) (ts : Nat) :
    ∃ ex priv st2,
      check_pending cfg env st username ts = ((username, ts, ex, priv), st2) := by
  simp only [check_pending]
  repeat' split
  all_goals exact ⟨_, _, _, rfl⟩

/-- Value function of the existence-mode aggregation, for the generic fold. -/
def existVal (cfg : Config) (e : (String × Nat) × (Nat → PageHttp))
    (_ : RateState) : Bool :=
  (check_existence cfg e.2 e.1.1 e.1.2).2.2.1

theorem existence_step_eq (cfg : Config) :
    existence_step cfg = genStep (existVal cfg) (fun _ st => st) := by
  funext acc e
  obtain ⟨ex, hex⟩ := check_existence_shape cfg e.2 e.1.1 e.1.2
  simp [existence_step, genStep, existVal, hex]

/-- Value function of the pending-mode aggregation, for the generic fold. -/
def pendVal (cfg : Config) (e : (String × Nat) × PendEnv) (st : RateState) :
    Bool × Option Bool :=
  ((check_pending cfg e.2 st e.1.1 e.1.2).1.2.2.1,
   (check_pending cfg e.2 st e.1.1 e.1.2).1.2.2.2)

/-- State update of the pending-mode aggregation, for the generic fold. -/
def pendNst (cfg : Config) (e : (String × Nat) × PendEnv) (st : RateState) :
    RateState :=
  (check_pending cfg e.2 st e.1.1 e.1.2).2

theorem pending_step_eq (cfg : Config) :
    pending_step cfg = genStep (pendVal cfg) (pendNst cfg) := by
  funext acc e
  obtain ⟨ex, priv, st2, hp⟩ := check_pending_shape cfg e.2 acc.2 e.1.1 e.1.2
  simp [pending_step, genStep, pendVal, pendNst, hp]

/-- Membership in the kept list produced from a results dict by filtering
with a keep predicate and projecting the keys. -/
theorem kept_mem_iff {V : Type} (pred : V → Bool)
    (results : List ((String × Nat) × V)) (k : String × Nat) :
    (k ∈ (results.filter fun p => pred p.2).map fun p => p.1) ↔
      ∃ v, (k, v) ∈ results ∧ pred v = true := by
  rw [List.mem_map]
  constructor
  · rintro ⟨⟨kk, vv⟩, hmem, rfl⟩
    rw [List.mem_filter] at hmem
    exact ⟨vv, hmem.1, hmem.2⟩
  · rintro ⟨v, hmem, hpred⟩
    exact ⟨(k, v), List.mem_filter.mpr ⟨hmem, hpred⟩, rfl⟩

/-- Last element of a `scanl` trace is the `foldl` value. -/
theorem scanl_getLastD {α β : Type} (f : β → α → β) :
    ∀ (l : List α) (b c : β), (List.scanl f b l).getLastD c = l.foldl f b := by
  intro l
  induction l with
  | nil => intro b c; simp [List.scanl_nil]
  | cons a rest ih =>
    intro b c
    rw [List.scanl_cons]
    simp only [List.singleton_append, List.getLastD_cons, List.foldl_cons]
    exact ih (f b a) b

/-- Mapped `getLastD` with a mapped default. -/
theorem getLastD_map {α β : Type} (f : α → β) :
    ∀ (l : List α) (a : α), (l.map f).getLastD (f a) = f (l.getLastD a) := by
  intro l
  induction l with
  | nil => intro a; simp
  | cons x rest ih =>
    intro a
    simp only [List.map_cons, List.getLastD_cons]
    exact ih x

/-! ### Run-level helper lemmas -/

/-- Results dict of an existence-mode run, before filtering. -/
def existence_results (cfg : Config)
    (es : List ((String × Nat) × (Nat → PageHttp))) (st0 : RateState) :
    List ((String × Nat) × Bool) :=
  (es.foldl (existence_step cfg) ([], { st0 with limited := false })).1

/-- Results dict of a pending-mode run, before filtering. -/
def pending_results (cfg : Config)
    (ps : List ((String × Nat) × PendEnv)) (st1 : RateState) :
    List ((String × Nat) × (Bool × Option Bool)) :=
  (ps.foldl (pending_step cfg) ([], { st1 with limited := false })).1

theorem run_existence_mem_iff (cfg : Config)
    (es : List ((String × Nat) × (Nat → PageHttp))) (st0 : RateState) (k : String × Nat) :
    (k ∈ (run_existence cfg es st0).1) ↔
      ∃ v, (k, v) ∈ existence_results cfg es st0 ∧ v = true :=
  kept_mem_iff (fun v => v) (existence_results cfg es st0) k

theorem run_pending_mem_iff (cfg : Config)
    (ps : List ((String × Nat) × PendEnv)) (st1 : RateState) (k : String × Nat) :
    (k ∈ (run_pending cfg ps st1).1) ↔
      ∃ v, (k, v) ∈ pending_results cfg ps st1 ∧ pendingKeeps v = true :=
  kept_mem_iff pendingKeeps (pending_results cfg ps st1) k

theorem existence_results_binding (cfg : Config)
    (es : List ((String × Nat) × (Nat → PageHttp))) (st0 : RateState) (k : String × Nat)
    (P : Bool → Prop)
    (hval : ∀ e, e ∈ es → e.1 = k → ∀ st', P (existVal cfg e st')) :
    ∀ v, (k, v) ∈ existence_results cfg es st0 → P v := by
  simp only [existence_results, existence_step_eq cfg]
  exact genFold_binding _ _ P k es [] _ (by simp) hval

theorem pending_results_binding (cfg : Config)
    (ps : List ((String × Nat) × PendEnv)) (st1 : RateState) (k : String × Nat)
    (P : Bool × Option Bool → Prop)
    (hval : ∀ e, e ∈ ps → e.1 = k → ∀ st', P (pendVal cfg e st')) :
    ∀ v, (k, v) ∈ pending_results cfg ps st1 → P v := by
  simp only [pending_results, pending_step_eq cfg]
  exact genFold_binding _ _ P k ps [] _ (by simp) hval

theorem existence_results_covered (cfg : Config)
    (es : List ((String × Nat) × (Nat → PageHttp))) (st0 : RateState) (k : String × Nat)
    (h : ∃ e, e ∈ es ∧ e.1 = k) :
    ∃ v, (k, v) ∈ existence_results cfg es st0 := by
  simp only [existence_results, existence_step_eq cfg]
  exact genFold_covered _ _ k es [] _ (Or.inl h)

theorem pending_results_covered (cfg : Config)
    (ps : List ((String × Nat) × PendEnv)) (st1 : RateState) (k : String × Nat)
    (h : ∃ e, e ∈ ps ∧ e.1 = k) :
    ∃ v, (k, v) ∈ pending_results cfg ps st1 := by
  simp only [pending_results, pending_step_eq cfg]
  exact genFold_covered _ _ k ps [] _ (Or.inl h)

theorem run_existence_kept_mem (cfg : Config)
    (es : List ((String × Nat) × (Nat → PageHttp))) (st0 : RateState) (x : String × Nat)
    (hx : x ∈ (run_existence cfg es st0).1) : x ∈ es.map Prod.fst := by
  obtain ⟨v, hv, _⟩ := (run_existence_mem_iff cfg es st0 x).mp hx
  have hkey : x ∈ (existence_results cfg es st0).map Prod.fst :=
    List.mem_map_of_mem Prod.fst hv
  rw [existence_results, existence_step_eq cfg] at hkey
  rcases genFold_keys_sub _ _ es [] _ x hkey with h | h
  · simp at h
  · exact h

theorem run_pending_kept_mem (cfg : Config)
    (ps : List ((String × Nat) × PendEnv)) (st1 : RateState) (x : String × Nat)
    (hx : x ∈ (run_pending cfg ps st1).1) : x ∈ ps.map Prod.fst := by
  obtain ⟨v, hv, _⟩ := (run_pending_mem_iff cfg ps st1 x).mp hx
  have hkey : x ∈ (pending_results cfg ps st1).map Prod.fst :=
    List.mem_map_of_mem Prod.fst hv
  rw [pending_results, pending_step_eq cfg] at hkey
  rcases genFold_keys_sub _ _ ps [] _ x hkey with h | h
  · simp at h
  · exact h

theorem run_existence_kept_nodup (cfg : Config)
    (es : List ((String × Nat) × (Nat → PageHttp))) (st0 : RateState) :
    (run_existence cfg es st0).1.Nodup := by
  have hkeys : ((existence_results cfg es st0).map Prod.fst).Nodup := by
    rw [existence_results, existence_step_eq cfg]
    exact genFold_keys_nodup _ _ es [] _ (by simp)
  have hsub : (run_existence cfg es st0).1.Sublist
      ((existence_results cfg es st0).map Prod.fst) :=
    ((existence_results cfg es st0).filter_sublist).map Prod.fst
  exact hkeys.sublist hsub

theorem run_pending_kept_nodup (cfg : Config)
    (ps : List ((String × Nat) × PendEnv)) (st1 : RateState) :
    (run_pending cfg ps st1).1.Nodup := by
  have hkeys : ((pending_results cfg ps st1).map Prod.fst).Nodup := by
    rw [pending_results, pending_step_eq cfg]
    exact genFold_keys_nodup _ _ ps [] _ (by simp)
  have hsub : (run_pending cfg ps st1).1.Sublist
      ((pending_results cfg ps st1).map Prod.fst) :=
    ((pending_results cfg ps st1).filter_sublist).map Prod.fst
  exact hkeys.sublist hsub

theorem run_existence_kept_length (cfg : Config)
    (es : List ((String × Nat) × (Nat → PageHttp))) (st0 : RateState) :
    (run_existence cfg es st0).1.length ≤ es.length := by
  have h1 : (run_existence cfg es st0).1.length ≤ (existence_results cfg es st0).length := by
    simp only [run_existence]
    rw [List.length_map]
    exact List.length_filter_le _ _
  have h2 : (existence_results cfg es st0).length ≤ es.length := by
    rw [existence_results, existence_step_eq cfg]
    simpa using genFold_length _ _ es [] _
  exact h1.trans h2

theorem run_pending_kept_length (cfg : Config)
    (ps : List ((String × Nat) × PendEnv)) (st1 : RateState) :
    (run_pending cfg ps st1).1.length ≤ ps.length := by
  have h1 : (run_pending cfg ps st1).1.length ≤ (pending_results cfg ps st1).length := by
    simp only [run_pending]
    rw [List.length_map]
    exact List.length_filter_le _ _
  have h2 : (pending_results cfg ps st1).length ≤ ps.length := by
    rw [pending_results, pending_step_eq cfg]
    simpa using genFold_length _ _ ps [] _
  exact h1.trans h2

/-- Count of any element in a list of account pairs without duplicates
is at most one. -/
theorem nodup_count_le_one {l : List (String × Nat)} (h : l.Nodup)
    (p : String × Nat) : l.count p ≤ 1 := by
  induction l with
  | nil => simp
  | cons x rest ih =>
    simp only [List.nodup_cons] at h
    have hcnt := ih h.2
    rw [List.count_cons]
    rcases eq_or_ne x p with rfl | hne
    · have h0 : rest.count x = 0 := List.count_eq_zero.mpr h.1
      simp [h0]
    · simp only [beq_iff_eq, if_neg hne, Nat.add_zero]
      exact hcnt

/-! ### Concrete fixtures used by witnesses and counterexamples -/

/-- Page oracle: every attempt returns a 200 page with a profile marker. -/
def pageConfirms : Nat → PageHttp := fun _ => .ok 200 "profilePage_x"

/-- Page oracle: every attempt raises `HTTPError` 401 (throttling). -/
def page401 : Nat → PageHttp := fun _ => .httpError 401

/-- Page oracle: every attempt raises `HTTPError` 404 (not found). -/
def page404 : Nat → PageHttp := fun _ => .httpError 404

/-- Page oracle: every attempt raises a non-HTTP exception (timeout). -/
def pageExc : Nat → PageHttp := fun _ => .exc

/-- Initial shared state: flag unset, cooldown deadline 0. -/
def st00 : RateState := ⟨false, 0⟩

/-- Pending-check environment whose profile-info fetch is throttled
(HTTP 401 at clock 0) and whose fallback search raises. -/
def envThrottled : PendEnv := ⟨pageConfirms, 0, .httpError 401 .parseFail, .exc⟩

/-- Pending-check environment at clock 100 (past the cooldown created at
clock 0) whose profile-info fetch succeeds with a valid private user. -/
def envRecovered : PendEnv :=
  ⟨pageConfirms, 100, .ok (.dict (.someUser (some ⟨some "b", 1, some true⟩))), .exc⟩

/-- Pending-check environment where every network call fails with a
non-HTTP exception: all signals inconclusive. -/
def envInconclusive : PendEnv := ⟨pageExc, 0, .exc, .exc⟩

/-- Pending-check environment whose profile-info fetch succeeds with a
valid private user at clock 0. -/
def envUserPriv : PendEnv :=
  ⟨pageConfirms, 0, .ok (.dict (.someUser (some ⟨some "b", 1, some true⟩))), .exc⟩

/-- Pending-check environment whose fallback search finds the queried
user with a public privacy flag. -/
def envSearchPub : PendEnv :=
  ⟨pageConfirms, 0, .exc, .ok [⟨some "d", 1, some false⟩]⟩

/-- Pending-check environment whose page probe reports the account
unavailable via HTTP 404. -/
def envPage404 : PendEnv := ⟨page404, 0, .exc, .exc⟩

/-! ### Claim C1 -/

/-- C1, counterexample.  The claim states that for every input list and
every pattern of probe results the kept list preserves the caller-supplied
input order (a subsequence of the input, aggregated by input order, not
completion order).  It is false: the results dict is populated in worker
completion order and the kept list is read out of it in that insertion
order.  Here the input order is `[("a",1), ("b",2)]`, both accounts
confirm to exist, workers complete in the order `[("b",2), ("a",1)]`, and
the kept output is `[("b",2), ("a",1)]`, which is not a subsequence of
the input in original order. -/
theorem C1_counterexample :
    (run_existence ⟨false, false⟩
        [(("b", 2), pageConfirms), (("a", 1), pageConfirms)] st00).1 =
      [("b", 2), ("a", 1)] ∧
    List.Perm
      (List.map Prod.fst [(("b", 2), pageConfirms), (("a", 1), pageConfirms)])
      [("a", 1), ("b", 2)] ∧
    ¬ List.Sublist
      (run_existence ⟨false, false⟩
          [(("b", 2), pageConfirms), (("a", 1), pageConfirms)] st00).1
      [("a", 1), ("b", 2)] := by
  refine ⟨by decide, ?_, by decide⟩
  simp only [List.map_cons, List.map_nil]
  exact List.Perm.swap _ _ _

/-- C1, amended.  The kept list returned by `verify_accounts` is ordered
by worker completion order, not input order: for pairwise-distinct
`(username, timestamp)` keys, in both check modes, the kept output is a
subsequence of the completion-order sequence of the run.  (It coincides
with the input order only when workers happen to complete in input
order.) -/
theorem C1_completion_order (cfg : Config)
    (es : List ((String × Nat) × (Nat → PageHttp)))
    (ps : List ((String × Nat) × PendEnv)) (st0 st1 : RateState)
    (hex : (es.map Prod.fst).Nodup) (hpend : (ps.map Prod.fst).Nodup) :
    List.Sublist (run_existence cfg es st0).1 (es.map Prod.fst) ∧
    List.Sublist (run_pending cfg ps st1).1 (ps.map Prod.fst) := by
  constructor
  · have hkeys : (existence_results cfg es st0).map Prod.fst = es.map Prod.fst := by
      rw [existence_results, existence_step_eq cfg]
      simpa using genFold_keys_eq _ _ es [] _ hex (by simp)
    have hsub : (run_existence cfg es st0).1.Sublist
        ((existence_results cfg es st0).map Prod.fst) :=
      ((existence_results cfg es st0).filter_sublist).map Prod.fst
    exact hkeys ▸ hsub
  · have hkeys : (pending_results cfg ps st1).map Prod.fst = ps.map Prod.fst := by
      rw [pending_results, pending_step_eq cfg]
      simpa using genFold_keys_eq _ _ ps [] _ hpend (by simp)
    have hsub : (run_pending cfg ps st1).1.Sublist
        ((pending_results cfg ps st1).map Prod.fst) :=
      ((pending_results cfg ps st1).filter_sublist).map Prod.fst
    exact hkeys ▸ hsub

/-- C1, witness for the amended theorem at a concrete two-account run in
each mode. -/
theorem C1_completion_order_witness :
    (([(("b", 2), pageConfirms), (("a", 1), pageConfirms)].map Prod.fst).Nodup ∧
     ([(("a", 1), envInconclusive)].map Prod.fst).Nodup) ∧
    List.Sublist
      (run_existence ⟨false, false⟩
          [(("b", 2), pageConfirms), (("a", 1), pageConfirms)] st00).1
      ([(("b", 2), pageConfirms), (("a", 1), pageConfirms)].map Prod.fst) ∧
    List.Sublist (run_pending ⟨false, false⟩ [(("a", 1), envInconclusive)] st00).1
      ([(("a", 1), envInconclusive)].map Prod.fst) :=
  ⟨⟨by decide, by decide⟩,
   (C1_completion_order ⟨false, false⟩
      [(("b", 2), pageConfirms), (("a", 1), pageConfirms)]
      [(("a", 1), envInconclusive)] st00 st00 (by decide) (by decide)).1,
   (C1_completion_order ⟨false, false⟩
      [(("b", 2), pageConfirms), (("a", 1), pageConfirms)]
      [(("a", 1), envInconclusive)] st00 st00 (by decide) (by decide)).2⟩

/-! ### Claim C2 -/

/-- C2, counterexample.  The claim states that if the shared rate-limit
flag was set at any moment during a run then the returned `wasThrottled`
is true even if the flag was later cleared.  It is false: the run returns
`_rate_limited.is_set()` evaluated at the end of the run.  Here worker
`("a",1)` is throttled at clock 0 (HTTP 401 sets the flag with cooldown
deadline 70), worker `("b",2)` runs at clock 100, past the deadline, so
its `_fetch_user` clears the flag and succeeds; the state trace of the
run is `[unset, set, unset]` — the flag was set during the run — yet the
returned `wasThrottled` is false. -/
theorem C2_counterexample :
    ((pending_states ⟨true, false⟩
        [(("a", 1), envThrottled), (("b", 2), envRecovered)] st00).map
        (fun s => s.limited) = [false, true, false]) ∧
    (((pending_states ⟨true, false⟩
        [(("a", 1), envThrottled), (("b", 2), envRecovered)] st00).any
        fun s => s.limited) = true) ∧
    (run_pending ⟨true, false⟩
        [(("a", 1), envThrottled), (("b", 2), envRecovered)] st00).2 = false := by
  refine ⟨by decide, by decide, by decide⟩

/-- C2, amended.  `verify_accounts` returns as `wasThrottled` the state
of the shared rate-limit flag at the moment the run finishes (the last
state of the run's state trace): a flag that was set during the run but
cleared again before the run finished yields `wasThrottled = false`. -/
theorem C2_final_state (cfg : Config) (completed : List ((String × Nat) × PendEnv))
    (st0 : RateState) :
    (run_pending cfg completed st0).2 =
      ((pending_states cfg completed st0).getLastD
        { st0 with limited := false }).limited := by
  simp only [run_pending, pending_states]
  have h := getLastD_map (fun p : List ((String × Nat) × (Bool × Option Bool)) × RateState => p.2)
    (List.scanl (pending_step cfg) ([], { st0 with limited := false }) completed)
    ([], { st0 with limited := false })
  rw [h, scanl_getLastD]

/-! ### Claim C3 -/

/-- C3, counterexample.  The claim states that in ExistenceOnly mode a
throttling status (HTTP 401/429) observed by the page probe sets the
shared `RateLimitState` so that the run reports `wasThrottled = true`.
It is false: `_fetch_profile_page` maps an `HTTPError` with code 401 to
the inconclusive pair `(False, False)` and never touches `_rate_limited`
(only `_fetch_user`, which ExistenceOnly mode never calls, sets it).
Here the single worker's probe observes HTTP 401 on every attempt, yet
the run returns `wasThrottled = false` (and, under the generic-page
deployment flag, keeps the account via the inconclusive branch). -/
theorem C3_counterexample :
    do_fetch (PageHttp.httpError 401) = (false, false) ∧
    (run_existence ⟨false, true⟩ [(("a", 1), page401)] st00).1 = [("a", 1)] ∧
    (run_existence ⟨false, true⟩ [(("a", 1), page401)] st00).2 = false := by
  refine ⟨by decide, by decide, by decide⟩

/-- C3, amended.  In ExistenceOnly mode a throttling status degrades to
the inconclusive branch of the page probe (`do_fetch` maps HTTP 401 and
429 to `(unavailable=false, confirms=false)`) and the shared
`RateLimitState` is never set by the page probe: the `wasThrottled`
result of every ExistenceOnly run is false. -/
theorem C3_existence_never_throttled (cfg : Config)
    (completed : List ((String × Nat) × (Nat → PageHttp))) (st0 : RateState) :
    (run_existence cfg completed st0).2 = false ∧
    do_fetch (PageHttp.httpError 401) = (false, false) ∧
    do_fetch (PageHttp.httpError 429) = (false, false) := by
  refine ⟨?_, by decide, by decide⟩
  simp only [run_existence, existence_step_eq cfg]
  rw [genFold_state_const (existVal cfg) (fun _ st => st) (fun _ _ => rfl)]

/-! ### Claim C4 -/

/-- C4, confirmed.  Conservative-on-ambiguity: with no authenticated
session, a fully inconclusive probe outcome (`fetch_profile_page` yields
neither the unavailable nor the confirms marker) leads, when the
generic-page deployment flag (`RENDER`) is set, to the account being
kept in both check modes — as a verdict (`exists=true`) and as
membership in the kept output of a run all of whose probes for that
account are inconclusive; with the flag unset, the same outcome yields
the RemovedMissing verdict (`exists=false`, and in pending mode
`is_private=None`) and absence from the kept output. -/
theorem C4_conservative_inconclusive (cfg : Config)
    (hsess : cfg.has_logged_in_session = false) :
    (∀ (attempts : Nat → PageHttp) (u : String) (ts : Nat),
        fetch_profile_page attempts = (false, false) →
        (cfg.verification_conservative = true →
          check_existence cfg attempts u ts = (u, ts, true, false)) ∧
        (cfg.verification_conservative = false →
          check_existence cfg attempts u ts = (u, ts, false, false))) ∧
    (∀ (env : PendEnv) (st : RateState) (u : String) (ts : Nat),
        fetch_profile_page env.pageAttempts = (false, false) →
        (cfg.verification_conservative = true →
          check_pending cfg env st u ts = ((u, ts, true, some true), st)) ∧
        (cfg.verification_conservative = false →
          check_pending cfg env st u ts = ((u, ts, false, none), st))) ∧
    (∀ (es : List ((String × Nat) × (Nat → PageHttp))) (st0 : RateState) (k : String × Nat),
        cfg.verification_conservative = true →
        (∃ e, e ∈ es ∧ e.1 = k) →
        (∀ e, e ∈ es → e.1 = k → fetch_profile_page e.2 = (false, false)) →
        k ∈ (run_existence cfg es st0).1) ∧
    (∀ (ps : List ((String × Nat) × PendEnv)) (st1 : RateState) (k : String × Nat),
        cfg.verification_conservative = true →
        (∃ e, e ∈ ps ∧ e.1 = k) →
        (∀ e, e ∈ ps → e.1 = k → fetch_profile_page e.2.pageAttempts = (false, false)) →
        k ∈ (run_pending cfg ps st1).1) ∧
    (∀ (es : List ((String × Nat) × (Nat → PageHttp))) (st0 : RateState) (k : String × Nat),
        cfg.verification_conservative = false →
        (∀ e, e ∈ es → e.1 = k → fetch_profile_page e.2 = (false, false)) →
        k ∉ (run_existence cfg es st0).1) ∧
    (∀ (ps : List ((String × Nat) × PendEnv)) (st1 : RateState) (k : String × Nat),
        cfg.verification_conservative = false →
        (∀ e, e ∈ ps → e.1 = k → fetch_profile_page e.2.pageAttempts = (false, false)) →
        k ∉ (run_pending cfg ps st1).1) := by
  refine ⟨?_, ?_, ?_, ?_, ?_, ?_⟩
  · intro attempts u ts hpage
    constructor <;> intro hcons <;> simp [check_existence, hpage, hsess, hcons]
  · intro env st u ts hpage
    constructor <;> intro hcons <;> simp [check_pending, hpage, hsess, hcons]
  · intro es st0 k hcons hex hall
    rw [run_existence_mem_iff]
    obtain ⟨v, hv⟩ := existence_results_covered cfg es st0 k hex
    refine ⟨v, hv, ?_⟩
    exact existence_results_binding cfg es st0 k (fun b => b = true)
      (fun e he hk st' => by simp [existVal, check_existence, hall e he hk, hsess, hcons])
      v hv
  · intro ps st1 k hcons hex hall
    rw [run_pending_mem_iff]
    obtain ⟨v, hv⟩ := pending_results_covered cfg ps st1 k hex
    have hval : v = (true, some true) :=
      pending_results_binding cfg ps st1 k (fun w => w = (true, some true))
        (fun e he hk st' => by simp [pendVal, check_pending, hall e he hk, hsess, hcons])
        v hv
    exact ⟨v, hv, by rw [hval]; rfl⟩
  · intro es st0 k hcons hall hk
    obtain ⟨v, hv, hvtrue⟩ := (run_existence_mem_iff cfg es st0 k).mp hk
    have hval : v = false :=
      existence_results_binding cfg es st0 k (fun b => b = false)
        (fun e he hkk st' => by simp [existVal, check_existence, hall e he hkk, hsess, hcons])
        v hv
    rw [hval] at hvtrue
    exact Bool.false_ne_true hvtrue
  · intro ps st1 k hcons hall hk
    obtain ⟨v, hv, hkeep⟩ := (run_pending_mem_iff cfg ps st1 k).mp hk
    have hval : v = (false, none) :=
      pending_results_binding cfg ps st1 k (fun w => w = (false, none))
        (fun e he hkk st' => by simp [pendVal, check_pending, hall e he hkk, hsess, hcons])
        v hv
    rw [hval] at hkeep
    exact Bool.false_ne_true hkeep

/-- C4, witness: concrete inconclusive probes (every network call times
out) under the generic-page deployment flag are kept in both modes, and
with the flag unset the same probe outcome is removed. -/
theorem C4_witness :
    ((⟨false, true⟩ : Config).has_logged_in_session = false ∧
     fetch_profile_page pageExc = (false, false)) ∧
    check_existence ⟨false, true⟩ pageExc "a" 1 = ("a", 1, true, false) ∧
    check_pending ⟨false, true⟩ envInconclusive st00 "a" 1 = (("a", 1, true, some true), st00) ∧
    ("a", 1) ∈ (run_pending ⟨false, true⟩ [(("a", 1), envInconclusive)] st00).1 ∧
    check_existence ⟨false, false⟩ pageExc "a" 1 = ("a", 1, false, false) :=
  ⟨⟨rfl, by decide⟩,
   ((C4_conservative_inconclusive ⟨false, true⟩ rfl).1 pageExc "a" 1 (by decide)).1 rfl,
   ((C4_conservative_inconclusive ⟨false, true⟩ rfl).2.1 envInconclusive st00 "a" 1
      (by decide)).1 rfl,
   (C4_conservative_inconclusive ⟨false, true⟩ rfl).2.2.2.1 [(("a", 1), envInconclusive)]
      st00 ("a", 1) rfl ⟨(("a", 1), envInconclusive), List.mem_singleton_self _, rfl⟩
      (fun e he _ => by rw [List.mem_singleton] at he; subst he; decide),
   ((C4_conservative_inconclusive ⟨false, false⟩ rfl).1 pageExc "a" 1 (by decide)).2 rfl⟩

/-! ### Claim C5 -/

/-- C5, confirmed.  Missing-removal: whenever the page probe reports the
account unavailable (`fetch_profile_page` yields `unavailable=true`,
which covers both the page markers and a transport-level 404), the
verdict is RemovedMissing in both modes — `exists=false` (with
`is_private=None` in pending mode) regardless of session state,
deployment flag or privacy — and the account is absent from the kept
output of any run all of whose probes for it report unavailable. -/
theorem C5_missing_removed (cfg : Config) :
    (∀ (attempts : Nat → PageHttp) (u : String) (ts : Nat),
        (fetch_profile_page attempts).1 = true →
        check_existence cfg attempts u ts = (u, ts, false, false)) ∧
    (∀ (env : PendEnv) (st : RateState) (u : String) (ts : Nat),
        (fetch_profile_page env.pageAttempts).1 = true →
        check_pending cfg env st u ts = ((u, ts, false, none), st)) ∧
    (∀ (es : List ((String × Nat) × (Nat → PageHttp))) (st0 : RateState) (k : String × Nat),
        (∀ e, e ∈ es → e.1 = k → (fetch_profile_page e.2).1 = true) →
        k ∉ (run_existence cfg es st0).1) ∧
    (∀ (ps : List ((String × Nat) × PendEnv)) (st1 : RateState) (k : String × Nat),
        (∀ e, e ∈ ps → e.1 = k → (fetch_profile_page e.2.pageAttempts).1 = true) →
        k ∉ (run_pending cfg ps st1).1) := by
  refine ⟨?_, ?_, ?_, ?_⟩
  · intro attempts u ts hpage
    simp [check_existence, hpage]
  · intro env st u ts hpage
    simp [check_pending, hpage]
  · intro es st0 k hall hk
    obtain ⟨v, hv, hvtrue⟩ := (run_existence_mem_iff cfg es st0 k).mp hk
    have hval : v = false :=
      existence_results_binding cfg es st0 k (fun b => b = false)
        (fun e he hkk st' => by simp [existVal, check_existence, hall e he hkk])
        v hv
    rw [hval] at hvtrue
    exact Bool.false_ne_true hvtrue
  · intro ps st1 k hall hk
    obtain ⟨v, hv, hkeep⟩ := (run_pending_mem_iff cfg ps st1 k).mp hk
    have hval : v = (false, none) :=
      pending_results_binding cfg ps st1 k (fun w => w = (false, none))
        (fun e he hkk st' => by simp [pendVal, check_pending, hall e he hkk])
        v hv
    rw [hval] at hkeep
    exact Bool.false_ne_true hkeep

/-- C5, witness: an account whose probe reports HTTP 404 on every attempt
gets the RemovedMissing verdict in both modes (here with an authenticated
session) and is absent from the kept output. -/
theorem C5_witness :
    (fetch_profile_page page404).1 = true ∧
    check_existence ⟨true, false⟩ page404 "m" 3 = ("m", 3, false, false) ∧
    check_pending ⟨true, false⟩ envPage404 st00 "m" 3 = (("m", 3, false, none), st00) ∧
    ("m", 3) ∉ (run_existence ⟨true, false⟩ [(("m", 3), page404)] st00).1 ∧
    ("m", 3) ∉ (run_pending ⟨true, false⟩ [(("m", 3), envPage404)] st00).1 :=
  ⟨by decide,
   (C5_missing_removed ⟨true, false⟩).1 page404 "m" 3 (by decide),
   (C5_missing_removed ⟨true, false⟩).2.1 envPage404 st00 "m" 3 (by decide),
   (C5_missing_removed ⟨true, false⟩).2.2.1 [(("m", 3), page404)] st00 ("m", 3)
     (fun e he _ => by rw [List.mem_singleton] at he; subst he; decide),
   (C5_missing_removed ⟨true, false⟩).2.2.2 [(("m", 3), envPage404)] st00 ("m", 3)
     (fun e he _ => by rw [List.mem_singleton] at he; subst he; decide)⟩

/-! ### Claim C6 -/

/-- C6, confirmed.  Privacy-removal in ExistenceAndPrivacy mode with an
authenticated session: when the page probe does not report the account
unavailable and the full profile-info fetch succeeds with a valid user
payload, the verdict is `(exists=true, is_private=payload flag)` (an
absent flag defaults to private); `pendingKeeps` maps that verdict to
keep exactly when the flag is private; and in a run over the account the
account is in the kept output iff the payload flag is private. -/
theorem C6_privacy_verdict (cfg : Config) (hsess : cfg.has_logged_in_session = true) :
    (∀ (env : PendEnv) (st st2 : RateState) (u : String) (ts : Nat) (user : PyUser),
        (fetch_profile_page env.pageAttempts).1 = false →
        fetch_user u env.userNow st env.userNet = (.userRes user, st2) →
        check_pending cfg env st u ts =
          ((u, ts, true, some (user.is_private.getD true)), st2)) ∧
    (∀ p : Bool, pendingKeeps (true, some p) = p) ∧
    (∀ (env : PendEnv) (st1 st2 : RateState) (k : String × Nat) (user : PyUser),
        (fetch_profile_page env.pageAttempts).1 = false →
        fetch_user k.1 env.userNow { st1 with limited := false } env.userNet =
          (.userRes user, st2) →
        (k ∈ (run_pending cfg [(k, env)] st1).1 ↔ user.is_private.getD true = true)) := by
  refine ⟨?_, ?_, ?_⟩
  · intro env st st2 u ts user hpage hfetch
    simp [check_pending, hpage, hsess, hfetch]
  · intro p
    cases p <;> rfl
  · intro env st1 st2 k user hpage hfetch
    have hr : check_pending cfg env { st1 with limited := false } k.1 k.2 =
        ((k.1, k.2, true, some (user.is_private.getD true)), st2) := by
      simp [check_pending, hpage, hsess, hfetch]
    have hresults : pending_results cfg [(k, env)] st1 =
        [(k, (true, some (user.is_private.getD true)))] := by
      simp [pending_results, pending_step, hr, dictInsert]
    rw [run_pending_mem_iff, hresults]
    constructor
    · rintro ⟨v, hv, hkeep⟩
      simp only [List.mem_singleton, Prod.mk.injEq] at hv
      rw [hv.2] at hkeep
      obtain hg | hg := Bool.eq_false_or_eq_true (user.is_private.getD true)
      · exact hg
      · rw [hg] at hkeep
        exact absurd hkeep (by decide)
    · intro hg
      refine ⟨(true, some (user.is_private.getD true)), by simp, ?_⟩
      rw [hg]
      rfl

/-- C6, witness: with an authenticated session and a valid private user
payload the account is kept; the verdict carries the payload's flag. -/
theorem C6_witness :
    ((⟨true, false⟩ : Config).has_logged_in_session = true ∧
     (fetch_profile_page envUserPriv.pageAttempts).1 = false ∧
     fetch_user "b" envUserPriv.userNow { st00 with limited := false } envUserPriv.userNet =
       (.userRes ⟨some "b", 1, some true⟩, st00)) ∧
    check_pending ⟨true, false⟩ envUserPriv st00 "b" 2 = (("b", 2, true, some true), st00) ∧
    ("b", 2) ∈ (run_pending ⟨true, false⟩ [(("b", 2), envUserPriv)] st00).1 :=
  ⟨⟨rfl, by decide, by decide⟩,
   (C6_privacy_verdict ⟨true, false⟩ rfl).1 envUserPriv st00 st00 "b" 2
     ⟨some "b", 1, some true⟩ (by decide) (by decide),
   ((C6_privacy_verdict ⟨true, false⟩ rfl).2.2 envUserPriv st00 st00 ("b", 2)
     ⟨some "b", 1, some true⟩ (by decide) (by decide)).mpr rfl⟩

/-! ### Claim C7 -/

/-- C7, confirmed.  Rate-limit escalation in ExistenceAndPrivacy mode:
with an authenticated session, a non-unavailable page and a profile-info
fetch reporting `RATE_LIMITED`, the checker maps the fallback search
result exactly as the claim states — no exact-username match yields the
RemovedMissing verdict `(false, None)`; a match with privacy flag `p`
yields `(true, p)` which `pendingKeeps` keeps iff `p` is private; a
search error or an absent privacy flag yields the conservative Kept
verdict `(true, True)`. -/
theorem C7_ratelimit_fallback (cfg : Config) (hsess : cfg.has_logged_in_session = true)
    (env : PendEnv) (st st2 : RateState) (u : String) (ts : Nat)
    (hpage : (fetch_profile_page env.pageAttempts).1 = false)
    (hrl : fetch_user u env.userNow st env.userNet = (.rateLimitedRes, st2)) :
    (search_check u env.searchNet = .notFound →
        check_pending cfg env st u ts = ((u, ts, false, none), st2)) ∧
    (search_check u env.searchNet = .errRes →
        check_pending cfg env st u ts = ((u, ts, true, some true), st2)) ∧
    (∀ user, search_check u env.searchNet = .foundUser user →
        check_pending cfg env st u ts =
          ((u, ts, true, some (user.is_private.getD true)), st2)) ∧
    (∀ p : Bool, pendingKeeps (true, some p) = p ∧ pendingKeeps (false, none) = false) := by
  refine ⟨?_, ?_, ?_, ?_⟩
  · intro hsearch
    simp [check_pending, hpage, hsess, hrl, hsearch]
  · intro hsearch
    simp [check_pending, hpage, hsess, hrl, hsearch]
  · intro user hsearch
    simp [check_pending, hpage, hsess, hrl, hsearch]
  · intro p
    exact ⟨by cases p <;> rfl, rfl⟩

/-- C7, witness: a throttled profile-info fetch (shared flag set, clock
inside the cooldown window) escalates to the fallback search, which finds
the queried user with a public flag; the verdict is RemovedNowPublic. -/
theorem C7_witness :
    ((⟨true, false⟩ : Config).has_logged_in_session = true ∧
     (fetch_profile_page envSearchPub.pageAttempts).1 = false ∧
     fetch_user "d" envSearchPub.userNow ⟨true, 70⟩ envSearchPub.userNet =
       (.rateLimitedRes, ⟨true, 70⟩) ∧
     search_check "d" envSearchPub.searchNet = .foundUser ⟨some "d", 1, some false⟩) ∧
    check_pending ⟨true, false⟩ envSearchPub ⟨true, 70⟩ "d" 5 =
      (("d", 5, true, some false), ⟨true, 70⟩) :=
  ⟨⟨rfl, by decide, by decide, by decide⟩,
   (C7_ratelimit_fallback ⟨true, false⟩ rfl envSearchPub ⟨true, 70⟩ ⟨true, 70⟩ "d" 5
      (by decide) (by decide)).2.2.1 ⟨some "d", 1, some false⟩ (by decide)⟩

/-! ### Claim C8 -/

/-- C8, confirmed.  Totality of the per-account checks over every
behaviour of the network layer: the oracle spaces `PageHttp`, `UserHttp`
and `SearchHttp` enumerate all outcome shapes the Python exception
handlers distinguish — timeouts and connection errors (`exc`), arbitrary
HTTP status/error codes, and malformed payloads (`parseFail`,
`notDict`, failing error bodies) — and for every such behaviour both
check functions resolve to a verdict tuple that echoes the account
identity unchanged, and both run aggregators resolve to a result pair;
no execution path escapes with an error. -/
theorem C8_total_no_raise :
    (∀ (cfg : Config) (env : PendEnv) (st : RateState) (u : String) (ts : Nat),
        ∃ ex priv st2, check_pending cfg env st u ts = ((u, ts, ex, priv), st2)) ∧
    (∀ (cfg : Config) (attempts : Nat → PageHttp) (u : String) (ts : Nat),
        ∃ ex, check_existence cfg attempts u ts = (u, ts, ex, false)) ∧
    (∀ (cfg : Config) (ps : List ((String × Nat) × PendEnv)) (st1 : RateState),
        ∃ kept throttled, run_pending cfg ps st1 = (kept, throttled)) ∧
    (∀ (cfg : Config) (es : List ((String × Nat) × (Nat → PageHttp))) (st0 : RateState),
        ∃ kept throttled, run_existence cfg es st0 = (kept, throttled)) :=
  ⟨fun cfg env st u ts => check_pending_shape cfg env st u ts,
   fun cfg attempts u ts => check_existence_shape cfg attempts u ts,
   fun _ _ _ => ⟨_, _, rfl⟩,
   fun _ _ _ => ⟨_, _, rfl⟩⟩

/-! ### Claim C9 -/

/-- C9, confirmed.  Subset property of `verify_accounts` in both modes:
for any run whose completed worker results cover exactly the input items
(a permutation — workers complete in any order), the kept output is at
most as long as the input, every kept element is a verbatim
`(username, timestamp)` element of the input, and the output has no
duplicates. -/
theorem C9_subset (cfg : Config)
    (es : List ((String × Nat) × (Nat → PageHttp))) (ps : List ((String × Nat) × PendEnv))
    (itemsE itemsP : List (String × Nat)) (st0 st1 : RateState)
    (hpe : List.Perm (es.map Prod.fst) itemsE) (hpp : List.Perm (ps.map Prod.fst) itemsP) :
    ((run_existence cfg es st0).1.length ≤ itemsE.length ∧
     (∀ x, x ∈ (run_existence cfg es st0).1 → x ∈ itemsE) ∧
     (run_existence cfg es st0).1.Nodup) ∧
    ((run_pending cfg ps st1).1.length ≤ itemsP.length ∧
     (∀ x, x ∈ (run_pending cfg ps st1).1 → x ∈ itemsP) ∧
     (run_pending cfg ps st1).1.Nodup) := by
  refine ⟨⟨?_, ?_, run_existence_kept_nodup cfg es st0⟩,
          ⟨?_, ?_, run_pending_kept_nodup cfg ps st1⟩⟩
  · have h1 := run_existence_kept_length cfg es st0
    have h2 : es.length = itemsE.length := by
      rw [← hpe.length_eq, List.length_map]
    omega
  · intro x hx
    exact hpe.mem_iff.mp (run_existence_kept_mem cfg es st0 x hx)
  · have h1 := run_pending_kept_length cfg ps st1
    have h2 : ps.length = itemsP.length := by
      rw [← hpp.length_eq, List.length_map]
    omega
  · intro x hx
    exact hpp.mem_iff.mp (run_pending_kept_mem cfg ps st1 x hx)

/-- C9, witness: a two-account existence run completing in reversed
order and a one-account pending run, against their input item lists. -/
theorem C9_witness :
    (List.Perm
       ([(("b", 2), pageConfirms), (("a", 1), pageConfirms)].map Prod.fst)
       [("a", 1), ("b", 2)] ∧
     List.Perm ([(("b", 2), envUserPriv)].map Prod.fst) [("b", 2)]) ∧
    (run_existence ⟨false, false⟩
        [(("b", 2), pageConfirms), (("a", 1), pageConfirms)] st00).1.length ≤
      ([("a", 1), ("b", 2)] : List (String × Nat)).length ∧
    (run_existence ⟨false, false⟩
        [(("b", 2), pageConfirms), (("a", 1), pageConfirms)] st00).1.Nodup ∧
    (run_pending ⟨false, false⟩ [(("b", 2), envUserPriv)] st00).1.length ≤
      ([("b", 2)] : List (String × Nat)).length ∧
    (run_pending ⟨false, false⟩ [(("b", 2), envUserPriv)] st00).1.Nodup :=
  ⟨⟨by decide, by decide⟩,
   (C9_subset ⟨false, false⟩
      [(("b", 2), pageConfirms), (("a", 1), pageConfirms)] [(("b", 2), envUserPriv)]
      [("a", 1), ("b", 2)] [("b", 2)] st00 st00 (by decide) (by decide)).1.1,
   (C9_subset ⟨false, false⟩
      [(("b", 2), pageConfirms), (("a", 1), pageConfirms)] [(("b", 2), envUserPriv)]
      [("a", 1), ("b", 2)] [("b", 2)] st00 st00 (by decide) (by decide)).1.2.2,
   (C9_subset ⟨false, false⟩
      [(("b", 2), pageConfirms), (("a", 1), pageConfirms)] [(("b", 2), envUserPriv)]
      [("a", 1), ("b", 2)] [("b", 2)] st00 st00 (by decide) (by decide)).2.1,
   (C9_subset ⟨false, false⟩
      [(("b", 2), pageConfirms), (("a", 1), pageConfirms)] [(("b", 2), envUserPriv)]
      [("a", 1), ("b", 2)] [("b", 2)] st00 st00 (by decide) (by decide)).2.2.2⟩

/-! ### Claim C10 -/

/-- C10, confirmed.  Duplicate collapse: because per-account results are
stored in a dict keyed by the `(username, timestamp)` pair in both
modes, every pair occurs at most once in the kept output of any run; and
concretely, an input containing the same kept pair twice produces an
output holding that pair once — strictly shorter than the two kept
occurrences submitted. -/
theorem C10_dup_collapse :
    (∀ (cfg : Config) (es : List ((String × Nat) × (Nat → PageHttp)))
       (ps : List ((String × Nat) × PendEnv)) (st0 st1 : RateState) (p : String × Nat),
        (run_existence cfg es st0).1.count p ≤ 1 ∧
        (run_pending cfg ps st1).1.count p ≤ 1) ∧
    (run_pending ⟨false, true⟩
        [(("a", 1), envInconclusive), (("a", 1), envInconclusive)] st00).1 = [("a", 1)] ∧
    [(("a", 1), envInconclusive), (("a", 1), envInconclusive)].length = 2 := by
  refine ⟨?_, by decide, rfl⟩
  intro cfg es ps st0 st1 p
  exact ⟨nodup_count_le_one (run_existence_kept_nodup cfg es st0) p,
         nodup_count_le_one (run_pending_kept_nodup cfg ps st1) p⟩

end IgVerify
